import Mathlib

/-!
Verification of the conversational session orchestration engine of a
WhatsApp appointment-booking bot.  The JavaScript sources are embedded
shallowly: every definition below is a direct translation of the function
with the same name in the repository.

  * `cleanConversationHistory`  from services/anthropicService.js
  * `extractTimeAndDay`, `matchSlot`, `correctDateFromSlots`
                                from services/slotMatcher.js
  * `hasEndPunctuation`, `processMessageBuffer`, `addMessageToBuffer`
                                from services/sessionService.js
  * `createHandoff`, `getActiveHandoffByClient`
                                from services/handoffService.js
  * the slot-acceptance interceptor of `routeByIntent`
                                from services/routerService.js
  * the message dispatch of `handleWebhook`
                                from controllers/webhookController.js

JavaScript strings are modelled by `String`; absent / `undefined` string
fields are modelled by the empty string (mirroring JS truthiness tests on
those fields); fallible external calls are passed in as explicit outcome
parameters.
-/

namespace WhatsappStarter

/-! ## Character and string helpers (JS primitives) -/

/-- Decimal digit test, `\d` of the JS regexes. -/
def isDigitCh (c : Char) : Bool := '0' ≤ c && c ≤ '9'

/-- Whitespace test, `\s` of the JS regexes and `String.prototype.trim`. -/
def isSpaceCh (c : Char) : Bool := c == ' ' || c == '\t' || c == '\n' || c == '\r'

/-- `String.prototype.toLowerCase` restricted to the alphabet that occurs in
the sources: ASCII letters plus the accented Spanish capitals. -/
def toLowerCh (c : Char) : Char :=
  if 'A' ≤ c && c ≤ 'Z' then Char.ofNat (c.toNat + 32)
  else if c == 'Á' then 'á'
  else if c == 'É' then 'é'
  else if c == 'Í' then 'í'
  else if c == 'Ó' then 'ó'
  else if c == 'Ú' then 'ú'
  else if c == 'Ñ' then 'ñ'
  else c

def toLowerStr (s : String) : String := String.mk (s.toList.map toLowerCh)

/-- `normalize("NFD").replace(/[̀-ͯ]/g, "")` on the Spanish
alphabet: strips the accent of a vowel and of `ñ`. -/
def stripAccentCh (c : Char) : Char :=
  if c == 'á' then 'a'
  else if c == 'é' then 'e'
  else if c == 'í' then 'i'
  else if c == 'ó' then 'o'
  else if c == 'ú' then 'u'
  else if c == 'ü' then 'u'
  else if c == 'ñ' then 'n'
  else c

/-- List-level prefix test (`Bool`-valued). -/
def isPrefixList : List Char → List Char → Bool
  | [], _ => true
  | _ :: _, [] => false
  | a :: as, b :: bs => a == b && isPrefixList as bs

/-- `String.prototype.includes` on character lists. -/
def containsSub : List Char → List Char → Bool
  | [], sub => sub.isEmpty
  | c :: rest, sub => isPrefixList sub (c :: rest) || containsSub rest sub

/-- `String.prototype.trim` (both ends). -/
def trimList (cs : List Char) : List Char :=
  ((cs.dropWhile isSpaceCh).reverse.dropWhile isSpaceCh).reverse

/-- `parseInt` on a non-empty digit string. -/
def digitsToNat (s : String) : Nat :=
  s.toList.foldl (fun acc c => acc * 10 + (c.toNat - '0'.toNat)) 0

/-- `String(n).padStart(2, "0")` for the hour field. -/
def padTwo (n : Nat) : String :=
  if n < 10 then "0" ++ toString n else toString n

/-- `Array.prototype.join(" ")`. -/
def spaceJoin (l : List String) : String := String.intercalate " " l

/-! ## Dialogue transcript data model

`anthropicService.js` transcripts are arrays of `{role, content}` objects
where `content` is either a plain string or an array of typed blocks
(`text`, `tool_use`, `tool_result`). -/

inductive Role where
  | user
  | assistant
deriving DecidableEq, Repr

inductive Block where
  | text (s : String)
  | tool_use (id name input : String)
  | tool_result (tool_use_id content : String)
deriving DecidableEq, Repr

inductive Content where
  | str (s : String)
  | blocks (bs : List Block)
deriving DecidableEq, Repr

structure Msg where
  role : Role
  content : Content
deriving DecidableEq, Repr

/-- `block.type === "tool_use"`. -/
def Block.isToolUse : Block → Bool
  | .tool_use _ _ _ => true
  | _ => false

/-- `block.type === "tool_result"`. -/
def Block.isToolResult : Block → Bool
  | .tool_result _ _ => true
  | _ => false

/-- `msg.role === "assistant" && Array.isArray(msg.content) &&
msg.content.some(b => b.type === "tool_use")`. -/
def msgHasToolUse (m : Msg) : Bool :=
  (m.role == .assistant) &&
    (match m.content with
     | .blocks bs => bs.any Block.isToolUse
     | .str _ => false)

/-- `msg.role === "user" && Array.isArray(msg.content) &&
msg.content.some(b => b.type === "tool_result")`. -/
def msgHasToolResult (m : Msg) : Bool :=
  (m.role == .user) &&
    (match m.content with
     | .blocks bs => bs.any Block.isToolResult
     | .str _ => false)

/-- The check on `history[i + 1]` in `cleanConversationHistory`: the next
message exists and carries a `tool_result` block. -/
def nextHasToolResult : List Msg → Bool
  | n :: _ => msgHasToolResult n
  | [] => false

/-- `cleaned[cleaned.length - 1]` as an optional value. -/
def lastMsg? : List Msg → Option Msg
  | [] => none
  | [m] => some m
  | _ :: m :: rest => lastMsg? (m :: rest)

/-- The check on `cleaned[cleaned.length - 1]`: the last message kept so far
exists and carries a `tool_use` block. -/
def lastHasToolUse (cleaned : List Msg) : Bool :=
  match lastMsg? cleaned with
  | some p => msgHasToolUse p
  | none => false

/-- The loop body of `cleanConversationHistory` (anthropicService.js,
lines 263-306): `cleaned` is the accumulator, the second argument the
remaining suffix of `history`. -/
def cleanLoop (cleaned : List Msg) : List Msg → List Msg
  | [] => cleaned
  | m :: rest =>
    if msgHasToolUse m && !(nextHasToolResult rest) then
      cleanLoop cleaned rest
    else if msgHasToolResult m && !(lastHasToolUse cleaned) then
      cleanLoop cleaned rest
    else
      cleanLoop (cleaned ++ [m]) rest

/-- `cleanConversationHistory(history)` of anthropicService.js: drops
assistant `tool_use` messages whose successor in the original history does
not carry a `tool_result` block, and `tool_result` messages whose
predecessor in the cleaned output does not carry a `tool_use` block.
Note that the code compares only roles and block types, never the
`tool_use` ids. -/
def cleanConversationHistory (history : List Msg) : List Msg :=
  if history.isEmpty then [] else cleanLoop [] history

/-- Recursion-friendly form of `cleanLoop`: instead of the full accumulator
it carries only the fact that matters, whether the last kept message has a
`tool_use` block (`false` when nothing was kept yet). -/
def cleanAux (b : Bool) : List Msg → List Msg
  | [] => []
  | m :: rest =>
    if msgHasToolUse m && !(nextHasToolResult rest) then
      cleanAux b rest
    else if msgHasToolResult m && !b then
      cleanAux b rest
    else
      m :: cleanAux (msgHasToolUse m) rest

/-- Orphan-freedom of a transcript, with `b` recording whether the previous
message carries a `tool_use` block: every `tool_use` message is immediately
followed by a `tool_result` message, and every `tool_result` message is
immediately preceded by a `tool_use` message. -/
def noOrphansFrom (b : Bool) : List Msg → Bool
  | [] => true
  | m :: rest =>
    (!(msgHasToolUse m) || nextHasToolResult rest) &&
    ((!(msgHasToolResult m) || b) &&
     noOrphansFrom (msgHasToolUse m) rest)

/-- A transcript is free of orphaned turns (matching by role and block
type): no `tool_use` message without an immediately following `tool_result`
message, no `tool_result` message without an immediately preceding
`tool_use` message. -/
def noOrphans (l : List Msg) : Bool := noOrphansFrom false l

/-- The `tool_use` call-ids carried by a message. -/
def requestIdsOfMsg (m : Msg) : List String :=
  match m.content with
  | .blocks bs => bs.filterMap (fun b => match b with
      | .tool_use id _ _ => some id
      | _ => none)
  | .str _ => []

/-- The `tool_result` call-ids carried by a message. -/
def resultIdsOfMsg (m : Msg) : List String :=
  match m.content with
  | .blocks bs => bs.filterMap (fun b => match b with
      | .tool_result id _ => some id
      | _ => none)
  | .str _ => []

/-! ### Lemmas about the history compactor -/

lemma lastMsg?_append_singleton (l : List Msg) (a : Msg) :
    lastMsg? (l ++ [a]) = some a := by
  induction l with
  | nil => rfl
  | cons x xs ih =>
    cases xs with
    | nil => rfl
    | cons y ys => simpa [lastMsg?] using ih

lemma cleanLoop_eq_cleanAux (l : List Msg) :
    ∀ cleaned, cleanLoop cleaned l = cleaned ++ cleanAux (lastHasToolUse cleaned) l := by
  induction l with
  | nil => intro cleaned; simp [cleanLoop, cleanAux]
  | cons m rest ih =>
    intro cleaned
    rw [cleanLoop, cleanAux]
    by_cases h1 : (msgHasToolUse m && !(nextHasToolResult rest)) = true
    · simp only [h1, if_true]; exact ih cleaned
    · simp only [h1, Bool.false_eq_true, if_false]
      by_cases h2 : (msgHasToolResult m && !(lastHasToolUse cleaned)) = true
      · simp only [h2, if_true]; exact ih cleaned
      · simp only [h2, Bool.false_eq_true, if_false]
        rw [ih (cleaned ++ [m])]
        have hlast : lastHasToolUse (cleaned ++ [m]) = msgHasToolUse m := by
          unfold lastHasToolUse
          rw [lastMsg?_append_singleton]
        rw [hlast, List.append_assoc, List.singleton_append]

/-- A message cannot carry both flags: `tool_use` needs role `assistant`,
`tool_result` needs role `user`. -/
lemma not_toolUse_and_toolResult (m : Msg) (h : msgHasToolUse m = true) :
    msgHasToolResult m = false := by
  unfold msgHasToolUse at h
  unfold msgHasToolResult
  have hrole : m.role = Role.assistant := by
    cases hr : m.role with
    | assistant => rfl
    | user => rw [hr] at h; simp at h
  rw [hrole]
  simp

/-- The output of `cleanAux` is orphan-free. -/
lemma noOrphansFrom_cleanAux (l : List Msg) : ∀ b, noOrphansFrom b (cleanAux b l) = true := by
  induction l with
  | nil => intro b; rfl
  | cons m rest ih =>
    intro b
    cases hu : msgHasToolUse m with
    | true =>
      have hr : msgHasToolResult m = false := not_toolUse_and_toolResult m hu
      cases rest with
      | nil => simpa [cleanAux, hu, nextHasToolResult] using ih b
      | cons n rest2 =>
        cases hres : msgHasToolResult n with
        | false =>
          have hnext : nextHasToolResult (n :: rest2) = false := hres
          simpa [cleanAux, hu, hnext] using ih b
        | true =>
          have hnext : nextHasToolResult (n :: rest2) = true := hres
          have hnu : msgHasToolUse n = false := by
            cases h : msgHasToolUse n with
            | false => rfl
            | true =>
              rw [not_toolUse_and_toolResult n h] at hres
              exact absurd hres (by simp)
          have hstep : cleanAux true (n :: rest2) = n :: cleanAux (msgHasToolUse n) rest2 := by
            rw [cleanAux]
            simp [hnu, hres, nextHasToolResult]
          have h3 := ih true
          rw [hstep, hnu] at h3
          rw [cleanAux]
          simp only [hu, hnext, hr, Bool.not_true, Bool.and_false, Bool.false_and,
            Bool.false_eq_true, if_false, hstep, hnu]
          rw [noOrphansFrom]
          have hhead : nextHasToolResult (n :: cleanAux false rest2) = true := hres
          simp [hu, hr, hhead, h3]
    | false =>
      have c1 : (msgHasToolUse m && !(nextHasToolResult rest)) = false := by
        rw [hu]; rfl
      cases hr : msgHasToolResult m with
      | true =>
        cases hb : b with
        | false => simpa [cleanAux, hu, hr] using ih false
        | true =>
          have hstep : cleanAux true (m :: rest) = m :: cleanAux (msgHasToolUse m) rest := by
            rw [cleanAux]
            simp [c1, hr]
          rw [hstep, hu, noOrphansFrom]
          simp [hu, hr, ih false]
      | false =>
        have hstep : cleanAux b (m :: rest) = m :: cleanAux (msgHasToolUse m) rest := by
          rw [cleanAux]
          simp [c1, hr]
        rw [hstep, hu, noOrphansFrom]
        simp [hu, hr, ih false]

/-- An orphan-free transcript is a fixpoint of `cleanAux`. -/
lemma cleanAux_of_noOrphansFrom (l : List Msg) :
    ∀ b, noOrphansFrom b l = true → cleanAux b l = l := by
  induction l with
  | nil => intro b _; rfl
  | cons m rest ih =>
    intro b h
    rw [noOrphansFrom] at h
    simp only [Bool.and_eq_true] at h
    obtain ⟨hA, hB, hC⟩ := h
    have ihr := ih (msgHasToolUse m) hC
    rw [cleanAux]
    have c1 : (msgHasToolUse m && !(nextHasToolResult rest)) = false := by
      cases hu : msgHasToolUse m with
      | false => rfl
      | true =>
        rw [hu] at hA
        simp at hA
        rw [hA]; rfl
    have c2 : (msgHasToolResult m && !b) = false := by
      cases hres : msgHasToolResult m with
      | false => rfl
      | true =>
        rw [hres] at hB
        simp at hB
        rw [hB]; rfl
    simp only [c1, c2, Bool.false_eq_true, if_false]
    rw [ihr]

lemma cleanConversationHistory_eq_cleanAux (history : List Msg) :
    cleanConversationHistory history = cleanAux false history := by
  unfold cleanConversationHistory
  cases history with
  | nil => rfl
  | cons m rest =>
    rw [if_neg (by simp)]
    rw [cleanLoop_eq_cleanAux]
    rfl

/-- Dropping an assistant `tool_use` message that no `tool_result` message
follows does not change the result of cleaning. -/
lemma cleanAux_elide_orphan (m : Msg) (hm : msgHasToolUse m = true)
    (t₁ : List Msg) :
    ∀ (b : Bool) (t₂ : List Msg), (∀ x ∈ t₂, msgHasToolResult x = false) →
      cleanAux b (t₁ ++ m :: t₂) = cleanAux b (t₁ ++ t₂) := by
  induction t₁ with
  | nil =>
    intro b t₂ h₂
    have hnext : nextHasToolResult t₂ = false := by
      cases t₂ with
      | nil => rfl
      | cons x xs => exact h₂ x (by simp)
    rw [List.nil_append, List.nil_append, cleanAux]
    simp [hm, hnext]
  | cons x t₁' ih =>
    intro b t₂ h₂
    rw [List.cons_append, List.cons_append, cleanAux, cleanAux]
    have hnn : nextHasToolResult (t₁' ++ m :: t₂) = nextHasToolResult (t₁' ++ t₂) := by
      cases t₁' with
      | cons y ys => rfl
      | nil =>
        have h1 : nextHasToolResult ([] ++ m :: t₂) = false := by
          simp [nextHasToolResult, not_toolUse_and_toolResult m hm]
        have h2 : nextHasToolResult ([] ++ t₂) = false := by
          cases t₂ with
          | nil => rfl
          | cons z zs => simpa [nextHasToolResult] using h₂ z (by simp)
        rw [h1, h2]
    rw [hnn]
    by_cases hcond1 : (msgHasToolUse x && !(nextHasToolResult (t₁' ++ t₂))) = true
    · simp only [hcond1, if_true]
      exact ih b t₂ h₂
    · simp only [hcond1, Bool.false_eq_true, if_false]
      by_cases hcond2 : (msgHasToolResult x && !b) = true
      · simp only [hcond2, if_true]
        exact ih b t₂ h₂
      · simp only [hcond2, Bool.false_eq_true, if_false]
        rw [ih (msgHasToolUse x) t₂ h₂]

/-! ### Claim theorems for the history compactor -/

/-- The counterexample transcript for claim C1: an assistant `tool_use`
turn with call-id `call_1` followed by a `tool_result` turn whose call-id
is `call_2`. -/
def mismatchedToolUseMsg : Msg :=
  ⟨.assistant, .blocks [.tool_use "call_1" "findPatientByDocument" "123"]⟩

/-- See `mismatchedToolUseMsg`. -/
def mismatchedToolResultMsg : Msg :=
  ⟨.user, .blocks [.tool_result "call_2" "Patient exists."]⟩

/-- C1, counterexample: the claim states that compaction drops every
assistant tool-request turn that is not immediately followed by a
tool-result turn carrying the *matching call-id*.  In the code the
call-ids are never compared: on a transcript whose tool-request has
call-id `call_1` and whose adjacent tool-result has call-id `call_2`,
`cleanConversationHistory` keeps both turns unchanged. -/
theorem cleanHistory_ignores_callIds_counterexample :
    cleanConversationHistory [mismatchedToolUseMsg, mismatchedToolResultMsg] =
      [mismatchedToolUseMsg, mismatchedToolResultMsg]
    ∧ requestIdsOfMsg mismatchedToolUseMsg = ["call_1"]
    ∧ resultIdsOfMsg mismatchedToolResultMsg = ["call_2"] := by
  exact ⟨rfl, rfl, rfl⟩

/-- C1 (amended): the LLM-facing compaction drops every assistant
tool-request turn that is not immediately followed by a user tool-result
turn, and every tool-result turn that is not immediately preceded by an
assistant tool-request turn, where turns are matched by role and block
type only (the call-ids are not compared); the compacted transcript
contains no such orphaned turns. -/
theorem cleanHistory_output_orphanFree (history : List Msg) :
    noOrphans (cleanConversationHistory history) = true := by
  rw [cleanConversationHistory_eq_cleanAux]
  unfold noOrphans
  exact noOrphansFrom_cleanAux history false

/-- C9: transcript compaction is idempotent, and an assistant tool-request
turn that no tool-result turn follows is dropped by compaction (compacting
the transcript gives the same result as compacting the transcript with
that turn removed). -/
theorem cleanHistory_idempotent_and_drops_orphan (t : List Msg) :
    cleanConversationHistory (cleanConversationHistory t) = cleanConversationHistory t
    ∧ ∀ t₁ m t₂, t = t₁ ++ m :: t₂ → msgHasToolUse m = true →
        (∀ x ∈ t₂, msgHasToolResult x = false) →
        cleanConversationHistory t = cleanConversationHistory (t₁ ++ t₂) := by
  constructor
  · rw [cleanConversationHistory_eq_cleanAux, cleanConversationHistory_eq_cleanAux]
    exact cleanAux_of_noOrphansFrom _ false (noOrphansFrom_cleanAux t false)
  · intro t₁ m t₂ hsplit hm h₂
    rw [cleanConversationHistory_eq_cleanAux, cleanConversationHistory_eq_cleanAux, hsplit]
    exact cleanAux_elide_orphan m hm t₁ false t₂ h₂

/-- The transcript used by the witness of C9: a lone orphaned tool-request
turn. -/
def orphanRequestMsg : Msg :=
  ⟨.assistant, .blocks [.tool_use "getAvailableTimeSlots" "getAvailableTimeSlots" "2026-01-20"]⟩

/-- C9, witness: evaluating the theorem on the one-turn transcript made of
`orphanRequestMsg`. -/
theorem cleanHistory_idempotent_and_drops_orphan_witness :
    cleanConversationHistory (cleanConversationHistory [orphanRequestMsg]) =
      cleanConversationHistory [orphanRequestMsg]
    ∧ cleanConversationHistory [orphanRequestMsg] = cleanConversationHistory ([] ++ []) :=
  ⟨(cleanHistory_idempotent_and_drops_orphan [orphanRequestMsg]).1,
   (cleanHistory_idempotent_and_drops_orphan [orphanRequestMsg]).2 [] orphanRequestMsg []
     rfl (by decide) (by simp)⟩

/-! ## Slot Matcher / Date Corrector (services/slotMatcher.js)

The hour regexes of `extractTimeAndDay` are modelled by explicit
leftmost-match scanners over the character list, with the same
backtracking order as the JavaScript engine (alternatives in source
order, greedy `\d{1,2}`, greedy optional `(?::(\d{2}))?`).

Patterns 1 and 2 of the source differ only in an *optional* trailing
meridiem group, which is behind the captured groups, so they succeed on
exactly the same inputs with the same captures; they are modelled by the
single scanner `lasSearch`. -/

/-- Candidate parses of `(\d{1,2})(?::(\d{2}))?` starting at the head of
the list, in backtracking order; each entry is (digit capture, optional
minute capture, remainder of the input). -/
def withColon (ds : String) (rest : List Char) : List (String × Option String × List Char) :=
  match rest with
  | ':' :: a :: b :: rest2 =>
    if isDigitCh a && isDigitCh b then
      (ds, some (String.mk [a, b]), rest2) :: [(ds, none, ':' :: a :: b :: rest2)]
    else [(ds, none, ':' :: a :: b :: rest2)]
  | _ => [(ds, none, rest)]

/-- See `withColon`: the two-digit alternative is tried before the
one-digit alternative, as the greedy `\d{1,2}` does. -/
def numParsesAt : List Char → List (String × Option String × List Char)
  | c1 :: c2 :: rest =>
    if isDigitCh c1 then
      if isDigitCh c2 then
        withColon (String.mk [c1, c2]) rest ++ withColon (String.mk [c1]) (c2 :: rest)
      else withColon (String.mk [c1]) (c2 :: rest)
    else []
  | [c1] => if isDigitCh c1 then withColon (String.mk [c1]) [] else []
  | [] => []

/-- The part of patterns 1 and 2 after the `(?:a las|las)` keyword:
`\s*` then the number group; everything after the number group is
optional and does not affect the captures. -/
def lasDigits (cs : List Char) : Option (String × Option String) :=
  ((numParsesAt (cs.dropWhile isSpaceCh)).head?).map (fun t => (t.1, t.2.1))

/-- Leftmost match of patterns 1 and 2,
`(?:a las|las)\s*(\d{1,2})(?::(\d{2}))?...`: scan start positions left to
right, at each trying the alternative `a las` before `las`. -/
def lasSearch : List Char → Option (String × Option String)
  | [] => none
  | c :: rest =>
    match (if isPrefixList "a las".toList (c :: rest) then
             lasDigits ((c :: rest).drop 5) else none) with
    | some r => some r
    | none =>
      match (if isPrefixList "las".toList (c :: rest) then
               lasDigits ((c :: rest).drop 3) else none) with
      | some r => some r
      | none => lasSearch rest

/-- The mandatory meridiem tail of patterns 3 and 4: `\s*` then one of
the given literal alternatives. -/
def merTail (alts : List (List Char)) (rest : List Char) : Bool :=
  alts.any (fun a => isPrefixList a (rest.dropWhile isSpaceCh))

/-- Match of patterns 3 and 4 anchored at the current position: the number
group followed by the mandatory meridiem, taking the first candidate parse
of the number group whose remainder carries the meridiem (JavaScript
backtracking order). -/
def merMatchAt (alts : List (List Char)) (cs : List Char) : Option (String × Option String) :=
  ((numParsesAt cs).find? (fun t => merTail alts t.2.2)).map (fun t => (t.1, t.2.1))

/-- Leftmost match of patterns 3 and 4. -/
def merSearch (alts : List (List Char)) : List Char → Option (String × Option String)
  | [] => none
  | c :: rest =>
    match merMatchAt alts (c :: rest) with
    | some r => some r
    | none => merSearch alts rest

/-- Leftmost match of pattern 5, the bare `(\d{1,2})(?::(\d{2}))?`. -/
def plainNumSearch : List Char → Option (String × Option String)
  | [] => none
  | c :: rest =>
    match (numParsesAt (c :: rest)).head? with
    | some t => some (t.1, t.2.1)
    | none => plainNumSearch rest

/-- The meridiem literal alternatives of pattern 3 (`am|a\.m\.|a\. m\.`). -/
def amAlts : List (List Char) := ["am", "a.m.", "a. m."].map String.toList

/-- The meridiem literal alternatives of pattern 4 (`pm|p\.m\.|p\. m\.`). -/
def pmAlts : List (List Char) := ["pm", "p.m.", "p. m."].map String.toList

/-- The weekday names searched by `extractTimeAndDay`, in source order. -/
def dias : List String :=
  ["lunes", "martes", "miércoles", "miercoles", "jueves", "viernes",
   "sábado", "sabado", "domingo"]

/-- `normalizeDia` of slotMatcher.js:
`dia.toLowerCase().normalize("NFD").replace(...)`. -/
def normalizeDia (dia : String) : String :=
  String.mk ((dia.toList.map toLowerCh).map stripAccentCh)

/-- The result of `extractTimeAndDay`. -/
structure Extracted where
  hora : String
  dia : Option String
deriving DecidableEq, Repr

/-- `extractTimeAndDay(text)` of slotMatcher.js: extract an `HH:MM` time
(running the five hour regexes in order over the lowercased text, with a
global `pm` test promoting hours below 12) and optionally the first
weekday name contained in the text (accent-stripped). -/
def extractTimeAndDay (text : String) : Option Extracted :=
  let textLower := toLowerStr text
  let cs := textLower.toList
  let groups :=
    match lasSearch cs with
    | some g => some g
    | none =>
      match merSearch amAlts cs with
      | some g => some g
      | none =>
        match merSearch pmAlts cs with
        | some g => some g
        | none => plainNumSearch cs
  match groups with
  | none => none
  | some (hs, mOpt) =>
    let hourA := digitsToNat hs
    let minutes := mOpt.getD "00"
    let isPM := containsSub cs "pm".toList || containsSub cs "p.m.".toList ||
                containsSub cs "p. m.".toList
    let hour := if isPM && hourA < 12 then hourA + 12 else hourA
    let dia := (dias.find? (fun d => containsSub cs d.toList)).map
      (fun d => String.mk (d.toList.map stripAccentCh))
    some ⟨padTwo hour ++ ":" ++ minutes, dia⟩

/-- An offered slot as stored on the session.  New-format slots carry
`{fecha_legible, hora, fecha_raw}`, old-format slots `{fecha, hora}`;
a JavaScript-absent field is modelled by the empty string. -/
structure Slot where
  fecha_legible : String
  hora : String
  fecha_raw : String
  fecha : String
deriving DecidableEq, Repr

/-- `slot.fecha_raw || slot.fecha`. -/
def slotFecha (s : Slot) : String :=
  if s.fecha_raw ≠ "" then s.fecha_raw else s.fecha

/-- Sakamoto weekday algorithm: day of week of a Gregorian date,
`0 = Sunday`.  Models what `new Date(fecha + "T12:00:00")` followed by a
weekday query computes for a valid calendar date. -/
def sakamotoDow (y m d : Nat) : Nat :=
  let t := [0, 3, 2, 5, 0, 3, 5, 1, 4, 6, 2, 4]
  let y := if m < 3 then y - 1 else y
  (y + y / 4 - y / 100 + y / 400 + (t.getD (m - 1) 0) + d) % 7

/-- Spanish lowercase weekday names as produced by
`toLocaleDateString("es-ES", { weekday: "long" })`, indexed from Sunday. -/
def dayNameEs (w : Nat) : String :=
  (["domingo", "lunes", "martes", "miércoles", "jueves", "viernes",
    "sábado"].getD w "")

/-- Spanish lowercase month names as produced by
`toLocaleDateString("es-ES", { month: "long" })`, indexed from January. -/
def monthNameEs (m : Nat) : String :=
  (["enero", "febrero", "marzo", "abril", "mayo", "junio", "julio",
    "agosto", "septiembre", "octubre", "noviembre", "diciembre"].getD (m - 1) "")

/-- Split a `YYYY-MM-DD` string into numeric fields
(`dateString.split("-").map(Number)`). -/
def parseYMD (s : String) : Option (Nat × Nat × Nat) :=
  match s.splitOn "-" with
  | [ys, ms, ds] =>
    if ys.toList.all isDigitCh && !ys.isEmpty &&
       (ms.toList.all isDigitCh && !ms.isEmpty) &&
       (ds.toList.all isDigitCh && !ds.isEmpty) then
      some (digitsToNat ys, digitsToNat ms, digitsToNat ds)
    else none
  | _ => none

/-- The weekday name of a `YYYY-MM-DD` date, lowercase Spanish; the empty
string when the date does not parse (the JavaScript fallback would produce
a non-weekday string there). -/
def weekdayLongEs (dateStr : String) : String :=
  match parseYMD dateStr with
  | some (y, m, d) => dayNameEs (sakamotoDow y m d)
  | none => ""

/-- The `split(",")[0]` of a human-readable label. -/
def beforeComma (s : String) : String :=
  String.mk (s.toList.takeWhile (fun c => c ≠ ','))

/-- The weekday name carried by a slot, as computed inside `matchSlot` and
`correctDateFromSlots`: from `fecha_legible` when present, otherwise from
the canonical date. -/
def slotDayName (s : Slot) : String :=
  if s.fecha_legible ≠ "" then toLowerStr (beforeComma s.fecha_legible)
  else toLowerStr (weekdayLongEs (slotFecha s))

/-- The value returned by `matchSlot`. -/
structure SlotMatch where
  fecha : String
  hora : String
deriving DecidableEq, Repr

/-- The slot loop of `matchSlot`: skip slots whose time differs; if no
weekday was extracted return the first time match, otherwise the first
time match whose label weekday equals the extracted weekday. -/
def matchSlotLoop (hora : String) (dia : Option String) : List Slot → Option SlotMatch
  | [] => none
  | s :: rest =>
    if s.hora ≠ hora then matchSlotLoop hora dia rest
    else
      match dia with
      | none => some ⟨slotFecha s, s.hora⟩
      | some d =>
        if normalizeDia (slotDayName s) = normalizeDia d then
          some ⟨slotFecha s, s.hora⟩
        else matchSlotLoop hora dia rest

/-- `matchSlot(userMessage, availableSlots)` of slotMatcher.js. -/
def matchSlot (userMessage : String) (availableSlots : List Slot) : Option SlotMatch :=
  if availableSlots.isEmpty then none
  else
    match extractTimeAndDay userMessage with
    | none => none
    | some e => matchSlotLoop e.hora e.dia availableSlots

/-- The day-disambiguation loop of `correctDateFromSlots`: first slot in
the time-matching list whose label weekday equals the day said by the
user. -/
def findDayMatch (du : String) : List Slot → Option String
  | [] => none
  | s :: rest =>
    if normalizeDia (slotDayName s) = du then some (slotFecha s)
    else findDayMatch du rest

/-- The `diaUsuario` computation of `correctDateFromSlots`:
`extracted?.dia ? normalizeDia(extracted.dia) : null`. -/
def diaFromMessage (userMessage : String) : Option String :=
  match extractTimeAndDay userMessage with
  | some e =>
    match e.dia with
    | some d => if d ≠ "" then some (normalizeDia d) else none
    | none => none
  | none => none

/-- The multiple-match branch of `correctDateFromSlots`: disambiguate by
the weekday said in the user message, defaulting to the first
time-matching slot `s0`. -/
def resolveMultiMatch (userMessage : String) (ms : List Slot) (s0 : Slot) : String :=
  match diaFromMessage userMessage with
  | some du =>
    match findDayMatch du ms with
    | some f => f
    | none => slotFecha s0
  | none => slotFecha s0

/-- `correctDateFromSlots(date, time, availableSlots, userMessage)` of
slotMatcher.js: when offered slots share the proposed time, their
canonical date overrides the candidate date, disambiguating multiple
matches by the weekday extracted from the user message, defaulting to the
first time-matching slot. -/
def correctDateFromSlots (date time : String) (availableSlots : List Slot)
    (userMessage : String) : String :=
  if availableSlots.isEmpty then date
  else
    let matchingSlots := availableSlots.filter (fun s => s.hora == time)
    match matchingSlots with
    | [] =>
      -- the source scans for a slot whose canonical date equals `date`
      -- and returns `date` whether or not it finds one
      if availableSlots.any (fun s => slotFecha s == date) then date else date
    | [s] => slotFecha s
    | s0 :: s1 :: rest => resolveMultiMatch userMessage (s0 :: s1 :: rest) s0

/-! ### Claim theorems for the Slot Matcher / Date Corrector -/

lemma findDayMatch_mem (du : String) (l : List Slot) (f : String)
    (h : findDayMatch du l = some f) : ∃ s ∈ l, f = slotFecha s := by
  induction l with
  | nil => simp [findDayMatch] at h
  | cons s rest ih =>
    rw [findDayMatch] at h
    by_cases hc : normalizeDia (slotDayName s) = du
    · rw [if_pos hc] at h
      exact ⟨s, by simp, (Option.some.inj h).symm⟩
    · rw [if_neg hc] at h
      obtain ⟨x, hx, hfx⟩ := ih h
      exact ⟨x, by simp [hx], hfx⟩

lemma resolveMultiMatch_mem (userMessage : String) (ms : List Slot) (s0 : Slot)
    (h0 : s0 ∈ ms) : ∃ s ∈ ms, resolveMultiMatch userMessage ms s0 = slotFecha s := by
  rw [resolveMultiMatch]
  cases diaFromMessage userMessage with
  | none => exact ⟨s0, h0, rfl⟩
  | some du =>
    cases hfd : findDayMatch du ms with
    | none =>
      refine ⟨s0, h0, ?_⟩
      simp [hfd]
    | some f =>
      obtain ⟨x, hx, hfx⟩ := findDayMatch_mem du ms f hfd
      refine ⟨x, hx, ?_⟩
      simp [hfd, hfx]

/-- C5: whenever at least one offered slot has the given time,
`correctDateFromSlots` returns the canonical date of one of the offered
slots, whatever candidate date was passed in. -/
theorem correctDateFromSlots_returns_offered (date time userMessage : String)
    (slots : List Slot) (h : ∃ s ∈ slots, s.hora = time) :
    ∃ s ∈ slots, correctDateFromSlots date time slots userMessage = slotFecha s := by
  obtain ⟨s₀, hs₀, hhora⟩ := h
  have hne : slots.isEmpty = false := by
    cases slots with
    | nil => simp at hs₀
    | cons a l => rfl
  have hmem : s₀ ∈ slots.filter (fun s => s.hora == time) :=
    List.mem_filter.mpr ⟨hs₀, by simp [hhora]⟩
  have hsub : ∀ x ∈ slots.filter (fun s => s.hora == time), x ∈ slots :=
    fun x hx => (List.mem_filter.mp hx).1
  unfold correctDateFromSlots
  simp only [hne, Bool.false_eq_true, if_false]
  cases hcases : slots.filter (fun s => s.hora == time) with
  | nil => rw [hcases] at hmem; simp at hmem
  | cons a tail =>
    have ha : a ∈ slots := hsub a (by rw [hcases]; simp)
    cases tail with
    | nil => exact ⟨a, ha, rfl⟩
    | cons b tail2 =>
      show ∃ s ∈ slots, resolveMultiMatch userMessage (a :: b :: tail2) a = slotFecha s
      obtain ⟨x, hx, hfx⟩ :=
        resolveMultiMatch_mem userMessage (a :: b :: tail2) a (by simp)
      exact ⟨x, hsub x (by rw [hcases]; exact hx), hfx⟩

/-- C5, witness: a two-slot list sharing the time `10:00`; the returned
date is the canonical date of the Tuesday slot. -/
theorem correctDateFromSlots_returns_offered_witness :
    ∃ s ∈ [(⟨"Lunes, 19 de enero", "10:00", "2026-01-19", ""⟩ : Slot),
           ⟨"Martes, 20 de enero", "10:00", "2026-01-20", ""⟩],
      correctDateFromSlots "2026-01-25" "10:00"
        [⟨"Lunes, 19 de enero", "10:00", "2026-01-19", ""⟩,
         ⟨"Martes, 20 de enero", "10:00", "2026-01-20", ""⟩]
        "el martes a las 10am" = slotFecha s :=
  correctDateFromSlots_returns_offered "2026-01-25" "10:00" "el martes a las 10am"
    _ ⟨⟨"Lunes, 19 de enero", "10:00", "2026-01-19", ""⟩, by simp, rfl⟩

/-- C10: when no offered slot has the given time, `correctDateFromSlots`
returns the candidate date unchanged, also when that date is absent from
the offered-slot list. -/
theorem correctDateFromSlots_no_time_match (date time userMessage : String)
    (slots : List Slot) (h : ∀ s ∈ slots, s.hora ≠ time) :
    correctDateFromSlots date time slots userMessage = date := by
  unfold correctDateFromSlots
  cases hslots : slots.isEmpty with
  | true => simp
  | false =>
    have hfil : slots.filter (fun s => s.hora == time) = [] := by
      rw [List.filter_eq_nil_iff]
      intro s hs
      simp [h s hs]
    simp [hfil]

/-- C10, witness: a slot list with only an `08:00` slot leaves the
candidate date `2026-02-14` (itself not an offered date) unchanged for
time `11:00`. -/
theorem correctDateFromSlots_no_time_match_witness :
    correctDateFromSlots "2026-02-14" "11:00"
      [⟨"Martes, 20 de enero", "08:00", "2026-01-20", ""⟩] "a las 11" = "2026-02-14" :=
  correctDateFromSlots_no_time_match "2026-02-14" "11:00" "a las 11" _
    (by intro s hs; simp at hs; rw [hs]; decide)

/-- C6: on a two-slot list sharing one time on two weekdays, `matchSlot`
with a text naming the time and the weekday `martes` returns the slot
whose human-readable label bears that weekday, and `matchSlot` with a text
naming only the time returns the first slot in list order with that
time. -/
theorem matchSlot_weekday_disambiguation (s1 s2 : Slot)
    (h1 : s1.hora = "10:00") (h2 : s2.hora = "10:00")
    (hd1 : normalizeDia (slotDayName s1) ≠ "martes")
    (hd2 : normalizeDia (slotDayName s2) = "martes") :
    matchSlot "el martes a las 10am" [s1, s2] = some ⟨slotFecha s2, s2.hora⟩
    ∧ matchSlot "a las 10am" [s1, s2] = some ⟨slotFecha s1, s1.hora⟩ := by
  have he1 : extractTimeAndDay "el martes a las 10am" = some ⟨"10:00", some "martes"⟩ := by
    rfl
  have he2 : extractTimeAndDay "a las 10am" = some ⟨"10:00", none⟩ := by
    rfl
  have hn : normalizeDia "martes" = "martes" := by rfl
  constructor
  · simp [matchSlot, matchSlotLoop, he1, h1, h2, hn, hd1, hd2]
  · simp [matchSlot, matchSlotLoop, he2, h1]

/-- C6, witness: evaluating the theorem on a Monday slot and a Tuesday
slot sharing the time `10:00`. -/
theorem matchSlot_weekday_disambiguation_witness :
    matchSlot "el martes a las 10am"
      [⟨"Lunes, 19 de enero", "10:00", "2026-01-19", ""⟩,
       ⟨"Martes, 20 de enero", "10:00", "2026-01-20", ""⟩] =
      some ⟨slotFecha ⟨"Martes, 20 de enero", "10:00", "2026-01-20", ""⟩,
            (⟨"Martes, 20 de enero", "10:00", "2026-01-20", ""⟩ : Slot).hora⟩
    ∧ matchSlot "a las 10am"
      [⟨"Lunes, 19 de enero", "10:00", "2026-01-19", ""⟩,
       ⟨"Martes, 20 de enero", "10:00", "2026-01-20", ""⟩] =
      some ⟨slotFecha ⟨"Lunes, 19 de enero", "10:00", "2026-01-19", ""⟩,
            (⟨"Lunes, 19 de enero", "10:00", "2026-01-19", ""⟩ : Slot).hora⟩ :=
  matchSlot_weekday_disambiguation
    ⟨"Lunes, 19 de enero", "10:00", "2026-01-19", ""⟩
    ⟨"Martes, 20 de enero", "10:00", "2026-01-20", ""⟩
    rfl rfl (by decide) (by decide)

/-! ## Message Aggregator (services/sessionService.js)

The per-key buffer state: the pending `session.messages` array, whether a
flush timer is armed for the key (`activeTimeouts.has(key)`), and the
re-entrancy flag (`processingFlags.get(key)`).  Each operation returns the
new state together with the coalesced text passed to the flush callback,
when the operation flushed. -/

structure BufState where
  messages : List String
  timerArmed : Bool
  processing : Bool
deriving DecidableEq, Repr

/-- The initial state of a key: no pending fragments, no timer, not
processing. -/
def initBufState : BufState := ⟨[], false, false⟩

/-- `hasEndPunctuation(text)` of sessionService.js:
`/[.!?]$/.test(text.trim())`. -/
def hasEndPunctuation (text : String) : Bool :=
  match (trimList text.toList).getLast? with
  | some c => c == '.' || c == '!' || c == '?'
  | none => false

/-- `processMessageBuffer(from, callback)` of sessionService.js: a no-op
when a flush is already in progress for the key; otherwise cancels any
armed timer, and when the buffer is non-empty clears it and invokes the
callback with the fragments joined by single spaces. -/
def processMessageBuffer (st : BufState) : BufState × Option String :=
  if st.processing then (st, none)
  else
    -- processingFlags.set(from, true); clearTimeout; finally the flag is
    -- deleted again, so it is false in every returned state
    if st.messages.isEmpty then ({ st with timerArmed := false }, none)
    else
      let fullText := spaceJoin st.messages
      (⟨[], false, false⟩, some fullText)

/-- `addMessageToBuffer(from, messageText, callback)` of
sessionService.js (the queued operation body): cancel any armed timer,
append the fragment, flush immediately on terminal punctuation, otherwise
re-arm the timer. -/
def addMessageToBuffer (st : BufState) (messageText : String) : BufState × Option String :=
  let st1 : BufState := { st with timerArmed := false,
                                  messages := st.messages ++ [messageText] }
  if hasEndPunctuation messageText then
    processMessageBuffer st1
  else
    ({ st1 with timerArmed := true }, none)

/-- A sequence of `addMessageToBuffer` calls on one key, collecting every
flush that occurs along the way. -/
def runEnqueues (st : BufState) : List String → BufState × List String
  | [] => (st, [])
  | t :: ts =>
    let r1 := addMessageToBuffer st t
    let r2 := runEnqueues r1.1 ts
    (r2.1, (match r1.2 with
            | some x => [x]
            | none => []) ++ r2.2)

/-! ### Claim theorems for the Message Aggregator -/

/-- C7: a fragment whose trimmed form ends in terminal punctuation flushes
the buffer within the same enqueue operation: the callback receives the
space-joined pending fragments (the new one included), the buffer is
cleared, and no flush timer remains armed.  The hypothesis
`st.processing = false` states that no flush of the key is already in
progress, which the per-key operation queue guarantees for queued
enqueues. -/
theorem addMessageToBuffer_punctuation_flushes (st : BufState) (text : String)
    (hp : hasEndPunctuation text = true) (hq : st.processing = false) :
    addMessageToBuffer st text = (⟨[], false, false⟩, some (spaceJoin (st.messages ++ [text]))) := by
  unfold addMessageToBuffer processMessageBuffer
  simp [hp, hq]

/-- C7, witness: enqueuing `"mundo."` over a pending `"hola"` fragment. -/
theorem addMessageToBuffer_punctuation_flushes_witness :
    addMessageToBuffer ⟨["hola"], true, false⟩ "mundo." =
      (⟨[], false, false⟩, some (spaceJoin (["hola"] ++ ["mundo."]))) :=
  addMessageToBuffer_punctuation_flushes ⟨["hola"], true, false⟩ "mundo."
    (by decide) rfl

lemma runEnqueues_no_punct (texts : List String) :
    ∀ ms b, (∀ t ∈ texts, hasEndPunctuation t = false) →
      runEnqueues ⟨ms, b, false⟩ texts =
        (⟨ms ++ texts, if texts.isEmpty then b else true, false⟩, []) := by
  induction texts with
  | nil => intro ms b _; simp [runEnqueues]
  | cons t ts ih =>
    intro ms b h
    have ht : hasEndPunctuation t = false := h t (by simp)
    have hstep : addMessageToBuffer ⟨ms, b, false⟩ t =
        (⟨ms ++ [t], true, false⟩, none) := by
      unfold addMessageToBuffer
      simp [ht]
    rw [runEnqueues, hstep]
    rw [ih (ms ++ [t]) true (fun x hx => h x (by simp [hx]))]
    simp

/-- C8: starting from an empty buffer, a sequence of enqueues none of
which ends in terminal punctuation produces no flush by itself and leaves
the fragments buffered in arrival order with the timer armed; when the
debounce timer then fires, exactly one flush occurs, carrying the
fragments joined by single spaces in arrival order, and a further timer
fire flushes nothing. -/
theorem runEnqueues_single_flush (texts : List String)
    (hne : texts ≠ []) (h : ∀ t ∈ texts, hasEndPunctuation t = false) :
    runEnqueues initBufState texts = (⟨texts, true, false⟩, [])
    ∧ processMessageBuffer ⟨texts, true, false⟩ = (⟨[], false, false⟩, some (spaceJoin texts))
    ∧ processMessageBuffer ⟨[], false, false⟩ = (⟨[], false, false⟩, none) := by
  refine ⟨?_, ?_, rfl⟩
  · unfold initBufState
    rw [runEnqueues_no_punct texts [] false h]
    cases texts with
    | nil => exact absurd rfl hne
    | cons a l => simp
  · unfold processMessageBuffer
    cases texts with
    | nil => exact absurd rfl hne
    | cons a l => simp

/-- C8, witness: the two-fragment sequence `["hola", "quiero una cita"]`. -/
theorem runEnqueues_single_flush_witness :
    runEnqueues initBufState ["hola", "quiero una cita"] =
      (⟨["hola", "quiero una cita"], true, false⟩, [])
    ∧ processMessageBuffer ⟨["hola", "quiero una cita"], true, false⟩ =
      (⟨[], false, false⟩, some (spaceJoin ["hola", "quiero una cita"]))
    ∧ processMessageBuffer ⟨[], false, false⟩ = (⟨[], false, false⟩, none) :=
  runEnqueues_single_flush ["hola", "quiero una cita"] (by simp) (by decide)

/-! ## Handoff service (services/handoffService.js)

The `open-handoffs` Firestore collection is modelled as a list of
documents in query order plus a fresh-id counter; timestamps (server-side
field values) are not part of the model. -/

structure HandoffDoc where
  id : String
  clientId : String
  agentPhoneNumber : String
  clientName : String
  status : String
deriving DecidableEq, Repr

structure HandoffStore where
  docs : List HandoffDoc
  nextId : Nat
deriving DecidableEq, Repr

/-- `getActiveHandoffByClient(clientId)` of handoffService.js: the first
document (`limit(1)`) with the given `clientId` and status `active`,
`null` when there is none. -/
def getActiveHandoffByClient (docs : List HandoffDoc) (clientId : String) :
    Option HandoffDoc :=
  (docs.filter (fun d => d.clientId == clientId && d.status == "active")).head?

/-- `createHandoff(clientId, agentPhoneNumber, clientName)` of
handoffService.js: return the existing active handoff of the client
unchanged when there is one, otherwise add a fresh document with status
`active` (the `clientName || "Cliente"` default applied). -/
def createHandoff (st : HandoffStore) (clientId agentPhoneNumber clientName : String) :
    HandoffDoc × HandoffStore :=
  match getActiveHandoffByClient st.docs clientId with
  | some existingHandoff => (existingHandoff, st)
  | none =>
    let handoffData : HandoffDoc :=
      { id := toString st.nextId
        clientId := clientId
        agentPhoneNumber := agentPhoneNumber
        clientName := if clientName ≠ "" then clientName else "Cliente"
        status := "active" }
    (handoffData, { docs := st.docs ++ [handoffData], nextId := st.nextId + 1 })

/-- At most one active handoff document per conversation key. -/
def atMostOneActivePerKey (docs : List HandoffDoc) : Prop :=
  ∀ key, (docs.filter (fun d => d.clientId == key && d.status == "active")).length ≤ 1

/-! ### Claim theorem for the handoff service -/

/-- C3: `createHandoff` is idempotent, and it preserves the invariant that
at most one active handoff exists per conversation key: when the client
already has an active handoff, that record is returned unchanged and the
store is untouched; otherwise the single new active record keeps the
per-key count at one. -/
theorem createHandoff_idempotent_unique (st : HandoffStore)
    (clientId agentPhoneNumber clientName : String) :
    (∀ h, getActiveHandoffByClient st.docs clientId = some h →
       createHandoff st clientId agentPhoneNumber clientName = (h, st))
    ∧ (atMostOneActivePerKey st.docs →
       atMostOneActivePerKey (createHandoff st clientId agentPhoneNumber clientName).2.docs) := by
  constructor
  · intro h hh
    unfold createHandoff
    rw [hh]
  · intro hinv
    unfold createHandoff
    cases hact : getActiveHandoffByClient st.docs clientId with
    | some h => exact hinv
    | none =>
      intro key
      have hfil : st.docs.filter
          (fun d => d.clientId == clientId && d.status == "active") = [] := by
        unfold getActiveHandoffByClient at hact
        exact List.head?_eq_none_iff.mp hact
      rw [List.filter_append]
      by_cases hkey : clientId = key
      · subst hkey
        rw [hfil]
        simp
      · have : (List.filter (fun (d : HandoffDoc) => d.clientId == key && d.status == "active")
            [{ id := toString st.nextId, clientId := clientId,
               agentPhoneNumber := agentPhoneNumber,
               clientName := if clientName ≠ "" then clientName else "Cliente",
               status := "active" }]) = [] := by
          have hbeq : (clientId == key) = false := beq_eq_false_iff_ne.mpr hkey
          simp [List.filter, hbeq]
        rw [this, List.append_nil]
        exact hinv key

/-- C3, witness: a store already holding an active handoff for key
`573001112233`; `createHandoff` returns it unchanged, and the invariant is
preserved. -/
theorem createHandoff_idempotent_unique_witness :
    createHandoff ⟨[⟨"7", "573001112233", "573009998877", "Cliente", "active"⟩], 8⟩
        "573001112233" "573009998877" "Ana" =
      (⟨"7", "573001112233", "573009998877", "Cliente", "active"⟩,
       ⟨[⟨"7", "573001112233", "573009998877", "Cliente", "active"⟩], 8⟩)
    ∧ atMostOneActivePerKey
        (createHandoff ⟨[⟨"7", "573001112233", "573009998877", "Cliente", "active"⟩], 8⟩
          "573001112233" "573009998877" "Ana").2.docs :=
  ⟨(createHandoff_idempotent_unique _ "573001112233" "573009998877" "Ana").1 _ rfl,
   (createHandoff_idempotent_unique _ "573001112233" "573009998877" "Ana").2
     (by intro key; simp [List.filter]; split <;> simp)⟩

/-! ## Dialogue router: automatic slot acceptance (services/routerService.js)

The interceptor at the top of `routeByIntent` (lines 250-301): before any
LLM call, when the session carries a non-empty offered-slot list and no
cached appointment id, the raw user text is run through `matchSlot`; a hit
books the appointment directly.  The external `createAppointment` call is
passed in as an explicit outcome. -/

/-- First-letter uppercasing, `charAt(0).toUpperCase() + slice(1)`. -/
def toUpperCh (c : Char) : Char :=
  if 'a' ≤ c && c ≤ 'z' then Char.ofNat (c.toNat - 32)
  else if c == 'á' then 'Á'
  else if c == 'é' then 'É'
  else if c == 'í' then 'Í'
  else if c == 'ó' then 'Ó'
  else if c == 'ú' then 'Ú'
  else if c == 'ñ' then 'Ñ'
  else c

def capitalizeFirst (s : String) : String :=
  match s.toList with
  | [] => ""
  | c :: rest => String.mk (toUpperCh c :: rest)

/-- `formatDateToHumanReadable(dateString)` of routerService.js:
`"Lunes, 29 de septiembre"` for `"2025-09-29"`.  The year never appears
because the locale options request only weekday, day and month, so the
year-stripping replace of the source is a no-op.  An unparsable string is
returned unchanged (the source would render an invalid date). -/
def formatDateToHumanReadable (dateString : String) : String :=
  match parseYMD dateString with
  | some (y, m, d) =>
    capitalizeFirst (dayNameEs (sakamotoDow y m d) ++ ", " ++ toString d ++
      " de " ++ monthNameEs m)
  | none => dateString

/-- The confirmation text sent after an automatic slot booking. -/
def confirmBookingMessage (fecha hora : String) : String :=
  "¡Perfecto! Tu cita está confirmada para el " ++ formatDateToHumanReadable fecha ++
  " a las " ++ hora ++ " con el Dr. Camilo. Te esperamos en la clínica. 😊"

/-- The session fields of `routeByIntent` that the interceptor touches.
`id_sesion` is the cached appointment id (`none` when absent or falsy). -/
structure RSession where
  availableSlots : List Slot
  id_sesion : Option Nat
  history : List Msg
deriving DecidableEq, Repr

/-- Outcome of the external `dentalinkService.createAppointment` call:
either success carrying the optional `result.data.id`, or a failure (a
falsy `result.success` or a thrown error). -/
inductive CreateOutcome where
  | success (idOpt : Option Nat)
  | failure
deriving DecidableEq, Repr

/-- How the turn proceeds after the interceptor: either the appointment
was booked and the turn returns with the given session (no LLM call), or
the turn falls through to the LLM path with the given session. -/
inductive RouteOutcome where
  | shortcutBooked (s : RSession)
  | llmPath (s : RSession)
deriving DecidableEq, Repr

/-- The slot-acceptance interceptor of `routeByIntent` (routerService.js
lines 250-301): guard
`session.availableSlots && session.availableSlots.length > 0 && !session.id_sesion`,
then `matchSlot`; on a successful booking, cache the new appointment id
when present, append the user text and the confirmation to the history and
delete `availableSlots`; any failure falls through to the LLM path with
the session unchanged. -/
def routeByIntentSlotInterceptor (session : RSession) (freeText : String)
    (createResult : CreateOutcome) : RouteOutcome :=
  if !session.availableSlots.isEmpty && session.id_sesion.isNone then
    match matchSlot freeText session.availableSlots with
    | some matchedSlot =>
      match createResult with
      | .success idOpt =>
        let s1 : RSession :=
          match idOpt with
          | some i => { session with id_sesion := some i }
          | none => session
        let mensaje := confirmBookingMessage matchedSlot.fecha matchedSlot.hora
        .shortcutBooked
          { s1 with
            history := s1.history ++ [⟨.user, .str freeText⟩, ⟨.assistant, .str mensaje⟩]
            availableSlots := [] }
      | .failure => .llmPath session
    | none => .llmPath session
  else .llmPath session

/-! ### Claim theorem for the slot-acceptance shortcut -/

/-- C2: the automatic slot-acceptance shortcut never fires when the
session already caches an appointment id, and whenever it books an
appointment the session held a non-empty offered-slot list and no
appointment id, and the resulting session has its offered-slot list
cleared. -/
theorem routeByIntent_shortcut_guard (session : RSession) (freeText : String)
    (createResult : CreateOutcome) :
    (session.id_sesion.isSome = true →
       routeByIntentSlotInterceptor session freeText createResult = .llmPath session)
    ∧ (∀ s2, routeByIntentSlotInterceptor session freeText createResult = .shortcutBooked s2 →
        session.availableSlots ≠ [] ∧ session.id_sesion = none ∧ s2.availableSlots = []) := by
  constructor
  · intro hsome
    have hnone : session.id_sesion.isNone = false := by
      cases h : session.id_sesion with
      | none => rw [h] at hsome; simp at hsome
      | some i => rfl
    unfold routeByIntentSlotInterceptor
    rw [hnone]
    simp
  · intro s2 heq
    unfold routeByIntentSlotInterceptor at heq
    cases hcond : (!session.availableSlots.isEmpty && session.id_sesion.isNone) with
    | false => rw [hcond] at heq; simp at heq
    | true =>
      rw [hcond, if_pos rfl] at heq
      have hcond2 := hcond
      simp only [Bool.and_eq_true] at hcond2
      obtain ⟨hne', hnone'⟩ := hcond2
      have hne : session.availableSlots ≠ [] := by
        cases h : session.availableSlots with
        | nil => rw [h] at hne'; simp at hne'
        | cons a l => simp
      have hnone : session.id_sesion = none := Option.isNone_iff_eq_none.mp hnone'
      refine ⟨hne, hnone, ?_⟩
      cases hms : matchSlot freeText session.availableSlots with
      | none => rw [hms] at heq; simp at heq
      | some m =>
        rw [hms] at heq
        cases createResult with
        | failure => simp at heq
        | success idOpt =>
          cases idOpt with
          | some i =>
            dsimp only at heq
            injection heq with h2
            rw [← h2]
          | none =>
            dsimp only at heq
            injection heq with h2
            rw [← h2]

/-- The witness session of C2: one Tuesday slot offered, no appointment
created yet. -/
def shortcutWitnessSession : RSession :=
  ⟨[⟨"Martes, 20 de enero", "10:00", "2026-01-20", ""⟩], none, []⟩

/-- The witness session of C2 with an appointment id already cached. -/
def shortcutBlockedSession : RSession :=
  ⟨[⟨"Martes, 20 de enero", "10:00", "2026-01-20", ""⟩], some 7, []⟩

/-- C2, witness: with an appointment already cached the interceptor takes
the LLM path, and on the session without one the shortcut books, with the
offered-slot list cleared in the resulting session. -/
theorem routeByIntent_shortcut_guard_witness :
    routeByIntentSlotInterceptor shortcutBlockedSession "el martes a las 10am"
        (.success (some 42)) = .llmPath shortcutBlockedSession
    ∧ (shortcutWitnessSession.availableSlots ≠ []
       ∧ shortcutWitnessSession.id_sesion = none
       ∧ (RSession.mk [] (some 42)
            [⟨.user, .str "el martes a las 10am"⟩,
             ⟨.assistant, .str (confirmBookingMessage "2026-01-20" "10:00")⟩]).availableSlots
           = []) :=
  ⟨(routeByIntent_shortcut_guard shortcutBlockedSession "el martes a las 10am"
      (.success (some 42))).1 rfl,
   (routeByIntent_shortcut_guard shortcutWitnessSession "el martes a las 10am"
      (.success (some 42))).2 _ rfl⟩

/-! ## Webhook dispatch (controllers/webhookController.js)

`handleWebhook` is modelled from the point where a message object has
been extracted from the event (earlier returns handle status updates and
empty events).  Results of external queries made by the handler —
`isAgentPhoneNumber`, `getAgentPhoneNumber`, `getActiveHandoffByClient`,
`getActiveHandoffByAgent` — are fields of an environment record, and the
handler returns the ordered list of external actions it performs.  The
`addMessageToBuffer` call of the client flow, whose flush callback invokes
`routeByIntent`, is the `enqueueBotTurn` effect; the one of the agent
flow, whose callback invokes the personal-assistant router, is
`enqueueAssistant`. -/

def trimStr (s : String) : String := String.mk (trimList s.toList)

def strContains (s sub : String) : Bool := containsSub s.toList sub.toList

/-- An inbound WhatsApp message; string fields that are absent on the
JavaScript object are the empty string. -/
structure InboundMessage where
  sender : String
  mtype : String
  textBody : String
  buttonPayload : String
  buttonText : String
  interactiveType : String
  interactiveButtonTitle : String
  interactiveListTitle : String
deriving DecidableEq, Repr

/-- Results of the external lookups `handleWebhook` performs. -/
structure WebhookEnv where
  isAgent : Bool
  agentPhoneNumber : String
  clientHandoff : Option HandoffDoc
  agentHandoff : Option HandoffDoc
deriving DecidableEq, Repr

/-- The externally visible actions of `handleWebhook`. -/
inductive Effect where
  | sendTextEff (recipient body : String)
  | logSimple (key role text clientName : String)
  | logMedia (key mtype : String)
  | mediaUpload (key mtype : String)
  | createHandoffEff (clientId agentPhone clientName : String)
  | updateHandoffTimestampEff (id : String)
  | processConfirmation (key : String)
  | processCancellation (key : String)
  | agentQuery (key text : String)
  | enqueueAssistant (key text : String)
  | enqueueBotTurn (key text : String)
deriving DecidableEq, Repr

/-- The template-button block (webhookController.js lines 64-126):
`some effects` when one of its keyword branches returns, `none` when the
flow falls through. -/
def templateButtonBranch (env : WebhookEnv) (m : InboundMessage) : Option (List Effect) :=
  if m.mtype == "button" && m.buttonPayload != "" then
    let buttonPayload := trimStr (toLowerStr m.buttonPayload)
    if strContains buttonPayload "disponible" then
      let userButtonText := if m.buttonText != "" then m.buttonText else "Sí, disponible"
      let confirmMessage := "👤 Perfecto, el Dr. Camilo se comunicará contigo en breve."
      some ([Effect.logSimple m.sender "user" userButtonText ""] ++
        (match env.clientHandoff with
         | none =>
           [Effect.createHandoffEff m.sender env.agentPhoneNumber "Cliente",
            Effect.sendTextEff m.sender confirmMessage,
            Effect.logSimple m.sender "assistant" confirmMessage "",
            Effect.sendTextEff env.agentPhoneNumber
              ("✅ " ++ m.sender ++ " está disponible para hablar. Revisa el dashboard para responder.")]
         | some _ => []))
    else if strContains buttonPayload "ahora no" || strContains buttonPayload "no puedo" then
      let userButtonText := if m.buttonText != "" then m.buttonText else "Ahora no puedo"
      some [Effect.logSimple m.sender "user" userButtonText "",
            Effect.sendTextEff env.agentPhoneNumber
              ("⏳ " ++ m.sender ++ " respondió \"Ahora no puedo\". Intenta más tarde.")]
    else if strContains buttonPayload "confirmo" then
      some [Effect.processConfirmation m.sender]
    else if strContains buttonPayload "no podré" || strContains buttonPayload "no podre" ||
            strContains buttonPayload "cancelar" then
      some [Effect.processCancellation m.sender]
    else none
  else none

/-- The interactive-button block (webhookController.js lines 129-144). -/
def interactiveButtonBranch (m : InboundMessage) : Option (List Effect) :=
  if m.mtype == "interactive" && m.interactiveType == "button_reply" then
    let buttonTitle := trimStr (toLowerStr m.interactiveButtonTitle)
    if strContains buttonTitle "confirmo" then
      some [Effect.processConfirmation m.sender]
    else if strContains buttonTitle "no podré" || strContains buttonTitle "cancelar" then
      some [Effect.processCancellation m.sender]
    else none
  else none

/-- The media types that always escalate (webhookController.js line 147). -/
def mediaTypes : List String := ["image", "video", "audio", "document", "sticker"]

/-- The media block (webhookController.js lines 148-204), success path:
upload, log, acknowledge, create a handoff when none is active, notify the
agent. -/
def mediaBranch (env : WebhookEnv) (m : InboundMessage) : Option (List Effect) :=
  if mediaTypes.contains m.mtype then
    let ackMessage := "He recibido tu archivo. Te conecto con un agente para ayudarte mejor."
    some ([Effect.mediaUpload m.sender m.mtype,
           Effect.logMedia m.sender m.mtype,
           Effect.sendTextEff m.sender ackMessage,
           Effect.logSimple m.sender "assistant" ackMessage ""] ++
      (match env.clientHandoff with
       | none => [Effect.createHandoffEff m.sender env.agentPhoneNumber "Cliente"]
       | some _ => []) ++
      [Effect.sendTextEff env.agentPhoneNumber
        ("📎 " ++ m.sender ++ " envió un archivo. Revisa el dashboard.")])
  else none

/-- The dispatch of `handleWebhook` (webhookController.js lines 64-289)
once a message has been extracted from the event. -/
def handleWebhookMessage (env : WebhookEnv) (m : InboundMessage) : List Effect :=
  match templateButtonBranch env m with
  | some effects => effects
  | none =>
  match interactiveButtonBranch m with
  | some effects => effects
  | none =>
  match mediaBranch env m with
  | some effects => effects
  | none =>
    let userMessageContent :=
      if m.mtype == "text" then m.textBody
      else if m.interactiveListTitle != "" then m.interactiveListTitle
      else m.interactiveButtonTitle
    if userMessageContent == "" then []
    else if env.isAgent then
      if isPrefixList "/".toList (toLowerStr (trimStr userMessageContent)).toList then
        [Effect.agentQuery m.sender userMessageContent]
      else
        match env.agentHandoff with
        | some activeHandoff =>
          [Effect.sendTextEff activeHandoff.clientId userMessageContent,
           Effect.updateHandoffTimestampEff activeHandoff.id,
           Effect.logSimple activeHandoff.clientId "agent" userMessageContent
             activeHandoff.clientName]
        | none => [Effect.enqueueAssistant m.sender userMessageContent]
    else
      match env.clientHandoff with
      | some clientHandoff =>
        [Effect.updateHandoffTimestampEff clientHandoff.id,
         Effect.logSimple m.sender "user" userMessageContent clientHandoff.clientName]
      | none => [Effect.enqueueBotTurn m.sender userMessageContent]

/-! ### Claim theorem for the webhook dispatch -/

/-- C4: while a handoff is active for a client key, an inbound end-user
text message on that key only updates the handoff timestamp and appends
the text to the durable transcript for the operator; in particular no
`addMessageToBuffer`-with-`routeByIntent` enqueue happens, so the Dialogue
Orchestrator is never invoked. -/
theorem handoff_bypasses_orchestrator (env : WebhookEnv) (m : InboundMessage)
    (h : HandoffDoc) (t : String)
    (hmt : m.mtype = "text") (htb : m.textBody = t) (hne : t ≠ "")
    (hagent : env.isAgent = false) (hcl : env.clientHandoff = some h) :
    handleWebhookMessage env m =
      [Effect.updateHandoffTimestampEff h.id, Effect.logSimple m.sender "user" t h.clientName]
    ∧ ∀ k txt, Effect.enqueueBotTurn k txt ∉ handleWebhookMessage env m := by
  have hb1 : templateButtonBranch env m = none := by
    unfold templateButtonBranch
    rw [hmt]
    have hc : (("text" : String) == "button") = false := rfl
    simp [hc]
  have hb2 : interactiveButtonBranch m = none := by
    unfold interactiveButtonBranch
    rw [hmt]
    have hc : (("text" : String) == "interactive") = false := rfl
    simp [hc]
  have hb3 : mediaBranch env m = none := by
    unfold mediaBranch
    rw [hmt]
    have hc : ("text" : String) ∉ mediaTypes := by decide
    simp [hc]
  have hmain : handleWebhookMessage env m =
      [Effect.updateHandoffTimestampEff h.id,
       Effect.logSimple m.sender "user" t h.clientName] := by
    unfold handleWebhookMessage
    rw [hb1, hb2, hb3, hmt, htb]
    have hc : (("text" : String) == "text") = true := rfl
    have hne2 : (t == "") = false := beq_eq_false_iff_ne.mpr hne
    simp [hc, hne2, hagent, hcl]
  refine ⟨hmain, ?_⟩
  intro k txt
  rw [hmain]
  simp

/-- The witness environment of C4: an end user with an active handoff. -/
def c4Env : WebhookEnv :=
  ⟨false, "573009998877", some ⟨"7", "573001112233", "573009998877", "Ana", "active"⟩, none⟩

/-- The witness message of C4: a plain text from the client. -/
def c4Msg : InboundMessage :=
  ⟨"573001112233", "text", "hola doctor", "", "", "", "", ""⟩

/-- C4, witness: the handler on the witness message only stamps the
handoff and logs the text for the dashboard. -/
theorem handoff_bypasses_orchestrator_witness :
    handleWebhookMessage c4Env c4Msg =
      [Effect.updateHandoffTimestampEff "7",
       Effect.logSimple "573001112233" "user" "hola doctor" "Ana"] :=
  (handoff_bypasses_orchestrator c4Env c4Msg
    ⟨"7", "573001112233", "573009998877", "Ana", "active"⟩ "hola doctor"
    rfl rfl (by decide) rfl rfl).1
